import Mathlib

/-!
Verification of the AI_Safety ingestion pipeline.

Shallow embedding of:
- the law-clause segmentation regex findall from
  attached_assets/build_safety_rag_db_1754373457149.py (pattern
  (제\d+조.*?)(?=제\d+조|\Z) with DOTALL semantics),
- the per-article metadata extraction (header line, strip, secondary
  regex search for the clause number),
- the JSON record loaders (accident cases, education items) with
  Python-dict KeyError semantics,
- the chunking pipeline of scripts/pdf_chunking.py and the DB builder,
  over a chunker modelled from the spec (the splitter itself is an
  external library, not part of this repository's sources).

Texts are `List Char`; a Python dict is an association list; a fallible
computation is `Except String`.
-/

namespace SafetyRag

/-- ASCII decimal digit test, the embedding of the regex class \d on the
digits appearing in the sources. -/
def isDigitChar (c : Char) : Bool := 48 ≤ c.toNat && c.toNat ≤ 57

/-- Match of the mandatory regex part 제\d+조 at the head of the text:
returns the digit group (the maximal nonempty digit run after 제,
followed by 조), as Python's greedy \d+ with backtracking resolves it. -/
def markerDigits : List Char → Option (List Char)
  | [] => none
  | c :: rest =>
      if c = '제' then
        let ds := rest.takeWhile isDigitChar
        if ds.isEmpty then none
        else if (rest.drop ds.length).head? = some '조' then some ds else none
      else none

/-- Does a clause marker 제\d+조 match at the head of the text? -/
def markerAt (s : List Char) : Bool := (markerDigits s).isSome

/-- The lazy body .*? under DOTALL with lookahead (?=제\d+조|\Z): consume
characters one at a time, stopping at the first position where a clause
marker starts (or at end of text). Returns (consumed body, remainder). -/
def lazyBody : List Char → List Char × List Char
  | [] => ([], [])
  | c :: rest =>
      if markerAt (c :: rest) then ([], c :: rest)
      else
        let p := lazyBody rest
        (c :: p.1, p.2)

/-- One fuel-indexed step structure of re.findall over the pattern
(제\d+조.*?)(?=제\d+조|\Z): scan left to right; at a marker, emit the
mandatory part plus the lazy body and continue at the lookahead
position; otherwise advance one character. Fuel bounds the recursion;
text length is always sufficient fuel. -/
def findallGo : Nat → List Char → List (List Char)
  | 0, _ => []
  | _ + 1, [] => []
  | fuel + 1, c :: rest =>
      match markerDigits (c :: rest) with
      | some ds =>
          let mandLen := ds.length + 2
          let p := lazyBody (List.drop mandLen (c :: rest))
          (List.take mandLen (c :: rest) ++ p.1) :: findallGo fuel p.2
      | none => findallGo fuel rest

/-- re.findall(r"(제\d+조.*?)(?=제\d+조|\Z)", s, re.DOTALL), line 74 of the
DB builder. -/
def findall_law (s : List Char) : List (List Char) := findallGo s.length s

/-- Does the text contain a clause marker anywhere? -/
def hasMarkerB : List Char → Bool
  | [] => false
  | c :: rest => markerAt (c :: rest) || hasMarkerB rest

/-- re.search(r"제(\d+)조", s): scan for the first position where the
marker matches and return its digit group. -/
def searchLawNum : List Char → Option (List Char)
  | [] => none
  | c :: rest =>
      match markerDigits (c :: rest) with
      | some ds => some ds
      | none => searchLawNum rest

/-- Python s.split("\n")[0]. -/
def firstLine (s : List Char) : List Char := s.takeWhile (fun c => c != '\n')

/-- Leading-whitespace removal, the left half of Python str.strip(). -/
def lstripL (s : List Char) : List Char := s.dropWhile Char.isWhitespace

/-- Trailing-whitespace removal, the right half of Python str.strip(). -/
def rstripL (s : List Char) : List Char :=
  (s.reverse.dropWhile Char.isWhitespace).reverse

/-- Python str.strip(): whitespace removed from both ends. -/
def pyStrip (s : List Char) : List Char := rstripL (lstripL s)

/-- A langchain Document: page_content plus a metadata dict, the dict
embedded as an association list from string keys to text values. -/
structure Document where
  page_content : List Char
  metadata : List (String × List Char)

/-- The body of the law_docs loop (DB builder lines 77-88): header line,
clause-number search with empty-string fallback, metadata assembly,
stripped page content. -/
def lawDocOf (m : List Char) : Document :=
  let header_line := pyStrip (firstLine m)
  let num := match searchLawNum header_line with
    | some ds => ds
    | none => []
  { page_content := pyStrip m
    metadata := [("type", "law".data), ("law_number", num),
                 ("title", header_line), ("source", "산업안전보건기준".data)] }

/-- law_docs: one Document per regex match. -/
def lawDocs (full_text : List Char) : List Document :=
  (findall_law full_text).map lawDocOf

/-- Modelled from the spec: the fuel-indexed window recursion of the
text splitter (RecursiveCharacterTextSplitter is an external library
whose code is not in this repository's sources). A window of the target
size is emitted and the next window starts (size - overlap) characters
later, per the spec's chunker contract; text of length at most the
target size is one final chunk. -/
def chunkGo : Nat → List Char → Nat → Nat → List (List Char)
  | 0, s, _, _ => [s]
  | fuel + 1, s, size, overlap =>
      if s.length ≤ size then [s]
      else List.take size s :: chunkGo fuel (List.drop (size - overlap) s) size overlap

/-- Modelled from the spec: the chunker over one text, with the
overlap < size precondition guarded explicitly as the spec demands
(otherwise the whole text is returned as one chunk). -/
def chunkText (size overlap : Nat) (s : List Char) : List (List Char) :=
  if overlap < size then chunkGo s.length s size overlap else [s]

/-- Modelled from the spec: concatenation of a chunk sequence
de-duplicating the overlapping regions, i.e. the first chunk followed by
every later chunk with its leading overlap characters removed. -/
def reassemble (overlap : Nat) : List (List Char) → List Char
  | [] => []
  | c :: cs => c ++ (cs.map (List.drop overlap)).flatten

/-- Modelled from the spec: splitter.split_documents — each Document's
text is chunked and every chunk carries the parent Document's metadata. -/
def splitDocuments (size overlap : Nat) (docs : List Document) : List Document :=
  docs.flatMap fun d =>
    (chunkText size overlap d.page_content).map fun t =>
      { page_content := t, metadata := d.metadata }

/-- Required accident-case fields, in access order (DB builder
lines 27-38, 40). -/
def requiredAccidentFields : List String :=
  ["title", "date", "location", "industry", "work_type", "accident_type",
   "damage", "summary", "direct_cause", "root_cause", "risk_keywords",
   "prevention"]

/-- Required education-item fields, in access order (DB builder
lines 53-60, 62). -/
def requiredEduFields : List String :=
  ["title", "date", "doc_number", "type", "keywords", "content", "url",
   "file_url"]

/-- One accident-case record rendered to a Document (DB builder lines
26-40). A Python dict subscript that misses is a KeyError, embedded as
Except.error carrying the missing key; lookups happen in source order,
so the error names the first missing field. -/
def loadAccident (r : List (String × String)) : Except String Document :=
  match List.lookup "title" r with
  | none => Except.error "title"
  | some vt =>
  match List.lookup "date" r with
  | none => Except.error "date"
  | some vd =>
  match List.lookup "location" r with
  | none => Except.error "location"
  | some vl =>
  match List.lookup "industry" r with
  | none => Except.error "industry"
  | some vi =>
  match List.lookup "work_type" r with
  | none => Except.error "work_type"
  | some vw =>
  match List.lookup "accident_type" r with
  | none => Except.error "accident_type"
  | some va =>
  match List.lookup "damage" r with
  | none => Except.error "damage"
  | some vg =>
  match List.lookup "summary" r with
  | none => Except.error "summary"
  | some vs =>
  match List.lookup "direct_cause" r with
  | none => Except.error "direct_cause"
  | some vc =>
  match List.lookup "root_cause" r with
  | none => Except.error "root_cause"
  | some vr =>
  match List.lookup "risk_keywords" r with
  | none => Except.error "risk_keywords"
  | some vk =>
  match List.lookup "prevention" r with
  | none => Except.error "prevention"
  | some vp =>
    Except.ok
      { page_content :=
          ("제목: " ++ vt ++ "\n발생일자: " ++ vd ++ "\n발생장소: " ++ vl ++
           "\n업종: " ++ vi ++ "\n작업유형: " ++ vw ++ "\n재해형태: " ++ va ++
           "\n피해정도: " ++ vg ++ "\n사고개요: " ++ vs ++ "\n직접원인: " ++ vc ++
           "\n근본원인: " ++ vr ++ "\n위험요인 키워드: " ++ vk ++
           "\n예방대책: " ++ vp).data
        metadata := [("type", "accident".data), ("title", vt.data)] }

/-- One education-item record rendered to a Document (DB builder lines
52-62), with the same KeyError embedding. -/
def loadEdu (r : List (String × String)) : Except String Document :=
  match List.lookup "title" r with
  | none => Except.error "title"
  | some vt =>
  match List.lookup "date" r with
  | none => Except.error "date"
  | some vd =>
  match List.lookup "doc_number" r with
  | none => Except.error "doc_number"
  | some vn =>
  match List.lookup "type" r with
  | none => Except.error "type"
  | some vy =>
  match List.lookup "keywords" r with
  | none => Except.error "keywords"
  | some vk =>
  match List.lookup "content" r with
  | none => Except.error "content"
  | some vc =>
  match List.lookup "url" r with
  | none => Except.error "url"
  | some vu =>
  match List.lookup "file_url" r with
  | none => Except.error "file_url"
  | some vf =>
    Except.ok
      { page_content :=
          ("제목: " ++ vt ++ "\n작성일자: " ++ vd ++ "\n발간번호: " ++ vn ++
           "\n자료형태: " ++ vy ++ "\n키워드: " ++ vk ++ "\n내용: " ++ vc ++
           "\nURL: " ++ vu ++ "\n첨부파일: " ++ vf).data
        metadata := [("type", "education".data), ("title", vt.data)] }

/-- The DB builder's document pipeline (lines 21-101): the three inputs
are the outcomes of the three file loads; any load failure, or any
missing record field, propagates and aborts the run, exactly as an
uncaught Python exception would. The chunk list mirrors
accident_chunks + edu_chunks + law_chunks with size 1000, overlap 100. -/
def buildDbDocs (accidentInput : Except String (List (List (String × String))))
    (eduInput : Except String (List (List (String × String))))
    (lawText : Except String (List Char)) : Except String (List Document) := do
  let cases ← accidentInput
  let accident_docs ← cases.mapM loadAccident
  let items ← eduInput
  let edu_docs ← items.mapM loadEdu
  let full_text ← lawText
  let law_docs := lawDocs full_text
  pure (splitDocuments 1000 100 accident_docs ++
        splitDocuments 1000 100 edu_docs ++
        splitDocuments 1000 100 law_docs)

/-- One page Document as produced by PyPDFLoader: page text plus the
page and source metadata entries read back in pdf_chunking.py. -/
structure PdfPage where
  page_content : List Char
  page : Nat
  source : List Char

/-- The chunk JSON object of pdf_chunking.py lines 37-45. -/
structure ChunkRecord where
  chunk_id : Nat
  page_number : Nat
  source : List Char
  content : List Char
  title : List Char
  category : List Char
  type : List Char

/-- Modelled from the spec: text_splitter.split_documents over the page
Documents of pdf_chunking.py, each chunk inheriting its page's metadata. -/
def splitPdfPages (size overlap : Nat) (docs : List PdfPage) : List PdfPage :=
  docs.flatMap fun d =>
    (chunkText size overlap d.page_content).map fun t => { d with page_content := t }

/-- The enumerate loop of pdf_chunking.py lines 36-45 building the chunk
JSON objects. -/
def toChunkRecords (docs : List PdfPage) : List ChunkRecord :=
  docs.enum.map fun p =>
    { chunk_id := p.1
      page_number := p.2.page
      source := p.2.source
      content := p.2.page_content
      title := ("산업안전보건기준에 관한 규칙 - 청크 " ++ toString (p.1 + 1)).data
      category := "산업안전보건법규".data
      type := "regulation".data }

/-- chunk_pdf (pdf_chunking.py lines 12-58): the loadResult argument is
the outcome of the PDF load inside the try block. On an exception the
except branch prints the error and returns 0; on success the function
chunks, reports, and returns the chunk count. The second component is
the sequence of printed lines. -/
def chunk_pdf (pdf_path output_path : String)
    (loadResult : Except String (List PdfPage)) : Nat × List String :=
  match loadResult with
  | Except.error e =>
      (0, ["PDF 파일 로드 중: " ++ pdf_path, "PDF 청킹 오류: " ++ e])
  | Except.ok docs =>
      let chunked := splitPdfPages 800 100 docs
      let chunks := toChunkRecords chunked
      (chunks.length,
       ["PDF 파일 로드 중: " ++ pdf_path,
        "PDF 페이지 수: " ++ toString docs.length,
        "총 청크 개수: " ++ toString chunked.length,
        "청킹 완료: " ++ output_path,
        "총 " ++ toString chunks.length ++ "개 청크 생성"])

/-- The usage line printed on a wrong argument count
(pdf_chunking.py line 62). -/
def usageMsg : String := "사용법: python pdf_chunking.py <pdf_path> <output_json_path>"

/-- The __main__ block of pdf_chunking.py lines 60-69: argv is
sys.argv (program name included). A wrong argument count prints the
usage message and exits with status 1; otherwise chunk_pdf runs and the
completion summary is printed, the process ending normally (status 0)
whatever chunk_pdf returned. Result: (exit status, printed lines). -/
def pdfChunkingMain (loadResult : Except String (List PdfPage))
    (argv : List String) : Nat × List String :=
  match argv with
  | [_, p, o] =>
      let r := chunk_pdf p o loadResult
      (0, r.2 ++ ["완료: " ++ toString r.1 ++ "개 청크"])
  | _ => (1, [usageMsg])

/-! ## List helper lemmas -/

theorem takeWhile_append_all (p : Char → Bool) (xs ys : List Char)
    (h : ∀ c ∈ xs, p c = true) :
    List.takeWhile p (xs ++ ys) = xs ++ List.takeWhile p ys := by
  induction xs with
  | nil => simp
  | cons a l ih =>
      have ha : p a = true := h a (List.mem_cons_self a l)
      simp [List.takeWhile_cons, ha, ih (fun c hc => h c (List.mem_cons_of_mem a hc))]

theorem dropWhile_append_cons_neg (p : Char → Bool) (u : List Char) (b : Char)
    (v : List Char) (hb : p b = false) :
    List.dropWhile p (u ++ b :: v) = List.dropWhile p u ++ b :: v := by
  induction u with
  | nil => simp [List.dropWhile_cons, hb]
  | cons a l ih =>
      by_cases ha : p a = true
      · simp [List.dropWhile_cons, ha, ih]
      · simp only [Bool.not_eq_true] at ha
        simp [List.dropWhile_cons, ha]

theorem drop_length_takeWhile (p : Char → Bool) (l : List Char) :
    List.drop (l.takeWhile p).length l = l.dropWhile p := by
  induction l with
  | nil => simp
  | cons a l ih =>
      by_cases ha : p a = true
      · simpa [List.takeWhile_cons, List.dropWhile_cons, ha] using ih
      · simp only [Bool.not_eq_true] at ha
        simp [List.takeWhile_cons, List.dropWhile_cons, ha]

theorem mem_takeWhile_sat (p : Char → Bool) (l : List Char) :
    ∀ c ∈ l.takeWhile p, p c = true := by
  induction l with
  | nil => simp
  | cons a l ih =>
      by_cases ha : p a = true
      · intro c hc
        rw [List.takeWhile_cons, if_pos ha] at hc
        rcases List.mem_cons.mp hc with rfl | hc
        · exact ha
        · exact ih c hc
      · intro c hc
        simp only [Bool.not_eq_true] at ha
        simp [List.takeWhile_cons, ha] at hc

/-! ## Marker structure lemmas -/

theorem markerDigits_eq_some (s ds : List Char) (h : markerDigits s = some ds) :
    ∃ t, s = '제' :: ds ++ '조' :: t ∧ ds ≠ [] ∧ ∀ c ∈ ds, isDigitChar c = true := by
  match s with
  | [] => simp [markerDigits] at h
  | c :: rest =>
      simp only [markerDigits] at h
      by_cases hc : c = '제'
      swap
      · rw [if_neg hc] at h; exact absurd h (by simp)
      rw [if_pos hc] at h
      by_cases he : (rest.takeWhile isDigitChar).isEmpty
      · rw [if_pos he] at h; exact absurd h (by simp)
      rw [if_neg he] at h
      by_cases hz : (rest.drop (rest.takeWhile isDigitChar).length).head? = some '조'
      swap
      · rw [if_neg hz] at h; exact absurd h (by simp)
      rw [if_pos hz] at h
      obtain rfl : rest.takeWhile isDigitChar = ds := Option.some.inj h
      subst hc
      rcases hd : rest.drop (rest.takeWhile isDigitChar).length with _ | ⟨c', t⟩ <;>
        rw [hd] at hz
      · exact absurd hz (by simp)
      obtain rfl : c' = '조' := by simpa using hz
      refine ⟨t, ?_, ?_, mem_takeWhile_sat isDigitChar rest⟩
      · have hsplit := List.takeWhile_append_dropWhile isDigitChar rest
        rw [← drop_length_takeWhile isDigitChar rest, hd] at hsplit
        exact congrArg (List.cons '제') hsplit.symm
      · intro hempty
        rw [hempty] at he
        simp at he

theorem markerDigits_of_shape (ds t : List Char) (hne : ds ≠ [])
    (hdig : ∀ c ∈ ds, isDigitChar c = true) :
    markerDigits ('제' :: ds ++ '조' :: t) = some ds := by
  have htw : List.takeWhile isDigitChar (ds ++ '조' :: t) = ds := by
    rw [takeWhile_append_all isDigitChar ds _ hdig]
    simp [List.takeWhile_cons, isDigitChar]
  have hdrop : List.drop ds.length (ds ++ '조' :: t) = '조' :: t := List.drop_left ds _
  simp [markerDigits, htw, hdrop, List.isEmpty_iff, hne]

theorem markerAt_of_shape (ds t : List Char) (hne : ds ≠ [])
    (hdig : ∀ c ∈ ds, isDigitChar c = true) :
    markerAt ('제' :: ds ++ '조' :: t) = true := by
  unfold markerAt
  rw [markerDigits_of_shape ds t hne hdig]
  rfl

theorem markerAt_false_of_not_isSome (s : List Char) (h : markerAt s = false) :
    markerDigits s = none := by
  unfold markerAt at h
  exact Option.not_isSome_iff_eq_none.mp (by simp [h])

/-! ## lazyBody lemmas -/

theorem lazyBody_append_eq (s : List Char) : (lazyBody s).1 ++ (lazyBody s).2 = s := by
  induction s with
  | nil => rfl
  | cons c rest ih =>
      by_cases hm : markerAt (c :: rest) = true
      · simp [lazyBody, hm]
      · simp only [Bool.not_eq_true] at hm
        simp [lazyBody, hm, ih]

theorem lazyBody_snd_length (s : List Char) : (lazyBody s).2.length ≤ s.length := by
  conv_rhs => rw [← lazyBody_append_eq s]
  simp

theorem lazyBody_eq_of_clean (x r : List Char)
    (hx : ∀ i, i < x.length → markerAt (List.drop i (x ++ r)) = false)
    (hr : markerAt r = true ∨ r = []) :
    lazyBody (x ++ r) = (x, r) := by
  induction x with
  | nil =>
      rcases hr with hr | rfl
      · match r, hr with
        | c :: rest, hr => simp [lazyBody, hr]
      · rfl
  | cons c x' ih =>
      have h0 : markerAt (c :: (x' ++ r)) = false := by
        have := hx 0 (by simp)
        simpa using this
      have ih' := ih (fun i hi => by
        have := hx (i + 1) (by simpa using Nat.succ_lt_succ hi)
        simpa using this)
      simp [lazyBody, h0, ih']

/-! ## findallGo lemmas -/

theorem findallGo_nil (fuel : Nat) : findallGo fuel [] = [] := by
  cases fuel <;> rfl

theorem findallGo_cons_none (fuel : Nat) (c : Char) (rest : List Char)
    (h : markerDigits (c :: rest) = none) :
    findallGo (fuel + 1) (c :: rest) = findallGo fuel rest := by
  simp [findallGo, h]

theorem findallGo_cons_some (fuel : Nat) (c : Char) (rest ds : List Char)
    (h : markerDigits (c :: rest) = some ds) :
    findallGo (fuel + 1) (c :: rest) =
      (List.take (ds.length + 2) (c :: rest) ++
        (lazyBody (List.drop (ds.length + 2) (c :: rest))).1) ::
      findallGo fuel (lazyBody (List.drop (ds.length + 2) (c :: rest))).2 := by
  simp [findallGo, h]

theorem findallGo_fuel_irrel (n : Nat) : ∀ (s : List Char) (f₁ f₂ : Nat),
    s.length ≤ n → s.length ≤ f₁ → s.length ≤ f₂ →
    findallGo f₁ s = findallGo f₂ s := by
  induction n with
  | zero =>
      intro s f₁ f₂ hn _ _
      have : s = [] := List.length_eq_zero.mp (Nat.le_zero.mp hn)
      subst this
      rw [findallGo_nil, findallGo_nil]
  | succ n ih =>
      intro s f₁ f₂ hn h1 h2
      match s with
      | [] => rw [findallGo_nil, findallGo_nil]
      | c :: rest =>
          match f₁, f₂ with
          | g₁ + 1, g₂ + 1 =>
              rcases hm : markerDigits (c :: rest) with _ | ds
              · rw [findallGo_cons_none g₁ c rest hm, findallGo_cons_none g₂ c rest hm]
                exact ih rest g₁ g₂ (by simpa using hn)
                  (by simpa using h1) (by simpa using h2)
              · rw [findallGo_cons_some g₁ c rest ds hm, findallGo_cons_some g₂ c rest ds hm]
                have hlen : (lazyBody (List.drop (ds.length + 2) (c :: rest))).2.length ≤
                    rest.length := by
                  calc (lazyBody (List.drop (ds.length + 2) (c :: rest))).2.length
                      ≤ (List.drop (ds.length + 2) (c :: rest)).length :=
                        lazyBody_snd_length _
                    _ ≤ rest.length := by
                        simp only [List.length_drop, List.length_cons]
                        omega
                have hn' : rest.length ≤ n := by simpa using hn
                have h1' : rest.length ≤ g₁ := by simpa using h1
                have h2' : rest.length ≤ g₂ := by simpa using h2
                rw [ih _ g₁ g₂ (le_trans hlen hn') (le_trans hlen h1') (le_trans hlen h2')]

theorem findallGo_skip (p : List Char) : ∀ (rest : List Char) (fuel : Nat),
    (∀ i, i < p.length → markerAt (List.drop i (p ++ rest)) = false) →
    findallGo (p.length + fuel) (p ++ rest) = findallGo fuel rest := by
  induction p with
  | nil => intro rest fuel _; simp
  | cons c p' ih =>
      intro rest fuel h
      have h0 : markerDigits (c :: (p' ++ rest)) = none := by
        apply markerAt_false_of_not_isSome
        have := h 0 (by simp)
        simpa using this
      have : (c :: p').length + fuel = (p'.length + fuel) + 1 := by
        simp [Nat.succ_add]
      rw [this]
      show findallGo ((p'.length + fuel) + 1) (c :: (p' ++ rest)) = findallGo fuel rest
      rw [findallGo_cons_none _ c _ h0]
      exact ih rest fuel (fun i hi => by
        have := h (i + 1) (by simpa using Nat.succ_lt_succ hi)
        simpa using this)

/-- One match step of findall at a single-digit marker: the emitted
match is the marker plus the clean body x, and scanning resumes at the
lookahead position r. -/
theorem findallGo_marker_step (d : Char) (x r : List Char)
    (hd : isDigitChar d = true)
    (hx : ∀ i, i < x.length → markerAt (List.drop i (x ++ r)) = false)
    (hr : markerAt r = true ∨ r = []) :
    findallGo ('제' :: d :: '조' :: (x ++ r)).length ('제' :: d :: '조' :: (x ++ r)) =
      ('제' :: d :: '조' :: x) :: findallGo r.length r := by
  have hmd : markerDigits ('제' :: d :: '조' :: (x ++ r)) = some [d] := by
    have := markerDigits_of_shape [d] (x ++ r) (by simp) (by simpa using hd)
    simpa using this
  have hlen : ('제' :: d :: '조' :: (x ++ r)).length = (x.length + r.length + 2) + 1 := by
    simp [List.length_append]
  rw [hlen, findallGo_cons_some _ _ _ [d] hmd]
  have hdrop : List.drop ([d].length + 2) ('제' :: d :: '조' :: (x ++ r)) = x ++ r := rfl
  have htake : List.take ([d].length + 2) ('제' :: d :: '조' :: (x ++ r)) = ['제', d, '조'] := rfl
  rw [hdrop, htake, lazyBody_eq_of_clean x r hx hr]
  have hfuel : findallGo (x.length + r.length + 2) r = findallGo r.length r :=
    findallGo_fuel_irrel r.length r _ _ le_rfl (by omega) le_rfl
  rw [hfuel]
  rfl

/-- Every match produced by findall begins with a clause marker: it has
the form 제 (digits) 조 followed by the lazy body. -/
theorem mem_findallGo_shape : ∀ (fuel : Nat) (s m : List Char), m ∈ findallGo fuel s →
    ∃ ds t, m = '제' :: ds ++ '조' :: t ∧ ds ≠ [] ∧ ∀ c ∈ ds, isDigitChar c = true := by
  intro fuel
  induction fuel with
  | zero => intro s m hm; simp [findallGo] at hm
  | succ n ih =>
      intro s m hm
      match s with
      | [] => rw [findallGo_nil] at hm; simp at hm
      | c :: rest =>
          rcases hmm : markerDigits (c :: rest) with _ | ds
          · rw [findallGo_cons_none n c rest hmm] at hm
            exact ih rest m hm
          · rw [findallGo_cons_some n c rest ds hmm] at hm
            rcases List.mem_cons.mp hm with rfl | hm
            · obtain ⟨t, hs, hne, hdig⟩ := markerDigits_eq_some _ ds hmm
              rw [hs]
              have htake : List.take (ds.length + 2) ('제' :: ds ++ '조' :: t) =
                  '제' :: ds ++ ['조'] := by
                have hx : '제' :: ds ++ '조' :: t = ('제' :: ds ++ ['조']) ++ t := by simp
                have hlen : ('제' :: ds ++ ['조']).length = ds.length + 2 := by simp
                rw [hx, ← hlen, List.take_left]
              have hdrop : List.drop (ds.length + 2) ('제' :: ds ++ '조' :: t) = t := by
                have hx : '제' :: ds ++ '조' :: t = ('제' :: ds ++ ['조']) ++ t := by simp
                have hlen : ('제' :: ds ++ ['조']).length = ds.length + 2 := by simp
                rw [hx, ← hlen, List.drop_left]
              rw [htake, hdrop]
              exact ⟨ds, (lazyBody t).1, by simp, hne, hdig⟩
            · exact ih _ m hm

/-- A text with no marker anywhere yields no matches, whatever the fuel. -/
theorem findallGo_of_no_marker : ∀ (fuel : Nat) (s : List Char),
    hasMarkerB s = false → findallGo fuel s = [] := by
  intro fuel
  induction fuel with
  | zero => intro s _; cases s <;> rfl
  | succ n ih =>
      intro s h
      match s with
      | [] => rfl
      | c :: rest =>
          unfold hasMarkerB at h
          obtain ⟨h1, h2⟩ := Bool.or_eq_false_iff.mp h
          rw [findallGo_cons_none n c rest (markerAt_false_of_not_isSome _ h1)]
          exact ih rest h2

/-! ## Header-line and strip lemmas -/

theorem digit_ne_newline (c : Char) (h : isDigitChar c = true) : (c != '\n') = true := by
  by_cases hc : c = '\n'
  · subst hc; simp [isDigitChar] at h
  · simpa using hc

theorem firstLine_marker (ds t : List Char) (hdig : ∀ c ∈ ds, isDigitChar c = true) :
    firstLine ('제' :: ds ++ '조' :: t) = '제' :: ds ++ '조' :: firstLine t := by
  unfold firstLine
  have hall : ∀ c ∈ '제' :: ds, (c != '\n') = true := by
    intro c hc
    rcases List.mem_cons.mp hc with rfl | hc
    · decide
    · exact digit_ne_newline c (hdig c hc)
  rw [takeWhile_append_all _ ('제' :: ds) _ hall]
  rw [List.takeWhile_cons, if_pos (by decide)]

theorem pyStrip_marker (ds w : List Char) (_hdig : ∀ c ∈ ds, isDigitChar c = true) :
    pyStrip ('제' :: ds ++ '조' :: w) = '제' :: ds ++ '조' :: rstripL w := by
  unfold pyStrip lstripL
  rw [List.cons_append, List.dropWhile_cons, if_neg (by decide), ← List.cons_append]
  have hx : ('제' :: ds) ++ '조' :: w = (('제' :: ds) ++ ['조']) ++ w := by simp
  rw [hx]
  unfold rstripL
  rw [List.reverse_append]
  have hrev : (('제' :: ds) ++ ['조']).reverse = '조' :: (ds.reverse ++ ['제']) := by simp
  rw [hrev, dropWhile_append_cons_neg _ _ '조' _ (by decide)]
  simp

theorem searchLawNum_marker (ds z : List Char) (hne : ds ≠ [])
    (hdig : ∀ c ∈ ds, isDigitChar c = true) :
    searchLawNum ('제' :: ds ++ '조' :: z) = some ds := by
  have h := markerDigits_of_shape ds z hne hdig
  rw [List.cons_append]
  unfold searchLawNum
  rw [List.cons_append] at h
  rw [h]

/-! ## Claims C1, C9, C10 -/

/-- C1: for every input text that contains exactly the three clause
markers 제1조, 제2조, 제3조 (formally: a decomposition
p ++ 제1조 ++ a ++ 제2조 ++ b ++ 제3조 ++ c in which no marker matches at
any position inside p, a, b or c, boundary positions included), the
findall over (제\d+조.*?)(?=제\d+조|\Z) with DOTALL produces exactly the
three matches, each starting at its marker and extending up to but not
including the next marker (the last to end-of-text), the text before
the first marker discarded; law_docs then holds exactly 3 Documents. -/
theorem law_segmentation_three_markers (p a b c : List Char)
    (hp : ∀ i, i < p.length → markerAt (List.drop i
      (p ++ '제' :: '1' :: '조' ::
        (a ++ '제' :: '2' :: '조' :: (b ++ '제' :: '3' :: '조' :: c)))) = false)
    (ha : ∀ i, i < a.length → markerAt (List.drop i
      (a ++ '제' :: '2' :: '조' :: (b ++ '제' :: '3' :: '조' :: c))) = false)
    (hb : ∀ i, i < b.length → markerAt (List.drop i
      (b ++ '제' :: '3' :: '조' :: c)) = false)
    (hc : ∀ i, i < c.length → markerAt (List.drop i c) = false) :
    findall_law (p ++ '제' :: '1' :: '조' ::
        (a ++ '제' :: '2' :: '조' :: (b ++ '제' :: '3' :: '조' :: c)))
      = ['제' :: '1' :: '조' :: a, '제' :: '2' :: '조' :: b, '제' :: '3' :: '조' :: c] ∧
    (lawDocs (p ++ '제' :: '1' :: '조' ::
        (a ++ '제' :: '2' :: '조' :: (b ++ '제' :: '3' :: '조' :: c)))).length = 3 := by
  have hm3 : markerAt ('제' :: '3' :: '조' :: c) = true := by
    have := markerAt_of_shape ['3'] c (by simp) (by decide)
    simpa using this
  have hm2 : markerAt ('제' :: '2' :: '조' :: (b ++ '제' :: '3' :: '조' :: c)) = true := by
    have := markerAt_of_shape ['2'] (b ++ '제' :: '3' :: '조' :: c) (by simp) (by decide)
    simpa using this
  have hc' : ∀ i, i < c.length → markerAt (List.drop i (c ++ [])) = false := by
    intro i hi
    rw [List.append_nil]
    exact hc i hi
  have step3 :
      findallGo ('제' :: '3' :: '조' :: (c ++ [])).length ('제' :: '3' :: '조' :: (c ++ []))
        = ('제' :: '3' :: '조' :: c) :: findallGo ([] : List Char).length [] :=
    findallGo_marker_step '3' c [] (by decide) hc' (Or.inr rfl)
  rw [List.append_nil] at step3
  have step2 :
      findallGo ('제' :: '2' :: '조' :: (b ++ '제' :: '3' :: '조' :: c)).length
          ('제' :: '2' :: '조' :: (b ++ '제' :: '3' :: '조' :: c))
        = ('제' :: '2' :: '조' :: b) ::
            findallGo ('제' :: '3' :: '조' :: c).length ('제' :: '3' :: '조' :: c) :=
    findallGo_marker_step '2' b ('제' :: '3' :: '조' :: c) (by decide) hb (Or.inl hm3)
  have step1 :
      findallGo ('제' :: '1' :: '조' ::
            (a ++ '제' :: '2' :: '조' :: (b ++ '제' :: '3' :: '조' :: c))).length
          ('제' :: '1' :: '조' :: (a ++ '제' :: '2' :: '조' :: (b ++ '제' :: '3' :: '조' :: c)))
        = ('제' :: '1' :: '조' :: a) ::
            findallGo ('제' :: '2' :: '조' :: (b ++ '제' :: '3' :: '조' :: c)).length
              ('제' :: '2' :: '조' :: (b ++ '제' :: '3' :: '조' :: c)) :=
    findallGo_marker_step '1' a ('제' :: '2' :: '조' :: (b ++ '제' :: '3' :: '조' :: c))
      (by decide) ha (Or.inl hm2)
  have hmain : findall_law (p ++ '제' :: '1' :: '조' ::
      (a ++ '제' :: '2' :: '조' :: (b ++ '제' :: '3' :: '조' :: c)))
      = ['제' :: '1' :: '조' :: a, '제' :: '2' :: '조' :: b, '제' :: '3' :: '조' :: c] := by
    unfold findall_law
    rw [List.length_append]
    rw [findallGo_skip p _ _ hp]
    rw [step1, step2, step3]
    rfl
  exact ⟨hmain, by simp [lawDocs, hmain]⟩

/-- C1 witness: a concrete text with the three markers. -/
theorem law_segmentation_three_markers_witness :
    findall_law ("머리글 ".data ++ '제' :: '1' :: '조' ::
        (" 안전. ".data ++ '제' :: '2' :: '조' :: (" 보건. ".data ++ '제' :: '3' :: '조' :: " 끝.".data)))
      = ['제' :: '1' :: '조' :: " 안전. ".data, '제' :: '2' :: '조' :: " 보건. ".data,
         '제' :: '3' :: '조' :: " 끝.".data] ∧
    (lawDocs ("머리글 ".data ++ '제' :: '1' :: '조' ::
        (" 안전. ".data ++ '제' :: '2' :: '조' :: (" 보건. ".data ++ '제' :: '3' :: '조' :: " 끝.".data)))).length = 3 :=
  law_segmentation_three_markers "머리글 ".data " 안전. ".data " 보건. ".data " 끝.".data
    (by decide) (by decide) (by decide) (by decide)

/-- C9: a text containing no clause marker at all yields zero matches
and zero law Documents; the segmentation completes normally with a
silent empty result (the embedding is a total function, so no
exceptional outcome exists). -/
theorem no_marker_silent_empty (t : List Char) (h : hasMarkerB t = false) :
    findall_law t = [] ∧ lawDocs t = [] := by
  have hf : findall_law t = [] := findallGo_of_no_marker t.length t h
  exact ⟨hf, by simp [lawDocs, hf]⟩

/-- C9 witness: a concrete marker-free text. -/
theorem no_marker_silent_empty_witness :
    hasMarkerB "안전 관리 지침".data = false ∧
      (findall_law "안전 관리 지침".data = [] ∧ lawDocs "안전 관리 지침".data = []) :=
  ⟨by decide, no_marker_silent_empty "안전 관리 지침".data (by decide)⟩

/-- C10: every match of the primary clause pattern starts with a marker
on its first line, so the secondary search 제(\d+)조 on the stripped
header line always succeeds with a nonempty digit group, the
empty-string fallback is not taken, and the Document's law_number
metadata holds that nonempty digit string. -/
theorem law_number_always_present (t m : List Char) (hm : m ∈ findall_law t) :
    ∃ ds, searchLawNum (pyStrip (firstLine m)) = some ds ∧ ds ≠ [] ∧
      (∀ c ∈ ds, isDigitChar c = true) ∧
      (lawDocOf m).metadata = [("type", "law".data), ("law_number", ds),
        ("title", pyStrip (firstLine m)), ("source", "산업안전보건기준".data)] := by
  obtain ⟨ds, t', hshape, hne, hdig⟩ :=
    mem_findallGo_shape t.length t m (by simpa [findall_law] using hm)
  have hfl : firstLine m = '제' :: ds ++ '조' :: firstLine t' := by
    rw [hshape]; exact firstLine_marker ds t' hdig
  have hps : pyStrip (firstLine m) = '제' :: ds ++ '조' :: rstripL (firstLine t') := by
    rw [hfl]; exact pyStrip_marker ds (firstLine t') hdig
  have hsn : searchLawNum (pyStrip (firstLine m)) = some ds := by
    rw [hps]; exact searchLawNum_marker ds (rstripL (firstLine t')) hne hdig
  refine ⟨ds, hsn, hne, hdig, ?_⟩
  unfold lawDocOf
  simp only [hsn]

/-- C10 witness: a concrete one-clause text. -/
theorem law_number_always_present_witness :
    ("제12조 안전".data ∈ findall_law "제12조 안전".data) ∧
    (∃ ds, searchLawNum (pyStrip (firstLine "제12조 안전".data)) = some ds ∧ ds ≠ [] ∧
      (∀ c ∈ ds, isDigitChar c = true) ∧
      (lawDocOf "제12조 안전".data).metadata = [("type", "law".data), ("law_number", ds),
        ("title", pyStrip (firstLine "제12조 안전".data)), ("source", "산업안전보건기준".data)]) :=
  ⟨by decide, law_number_always_present "제12조 안전".data "제12조 안전".data (by decide)⟩

/-! ## Chunker lemmas (splitter modelled from the spec) -/

theorem chunkGo_join_drop (size overlap : Nat) (h : overlap < size) :
    ∀ (fuel : Nat) (s : List Char), s.length ≤ fuel →
    ((chunkGo fuel s size overlap).map (List.drop overlap)).flatten = List.drop overlap s := by
  intro fuel
  induction fuel with
  | zero =>
      intro s hs
      have : s = [] := List.length_eq_zero.mp (Nat.le_zero.mp hs)
      subst this
      simp [chunkGo]
  | succ n ih =>
      intro s hs
      by_cases hb : s.length ≤ size
      · simp [chunkGo, hb]
      · push_neg at hb
        rw [chunkGo]
        rw [if_neg (by omega)]
        simp only [List.map_cons, List.flatten_cons]
        have hlen : (List.drop (size - overlap) s).length ≤ n := by
          simp only [List.length_drop]
          omega
        rw [ih _ hlen]
        rw [List.drop_drop]
        have hso : size - overlap + overlap = size := by omega
        rw [hso]
        have hsplit : List.drop overlap s =
            List.drop overlap (List.take size s) ++ List.drop size s := by
          conv_lhs => rw [← List.take_append_drop size s]
          rw [List.drop_append_of_le_length]
          rw [List.length_take]
          omega
        rw [hsplit]

/-- C2: for every text and every (target size, overlap) with
overlap < size, concatenating the chunk sequence while de-duplicating
the overlapping regions reconstructs the original text exactly.
(The splitter is modelled from the spec; its implementation is an
external library outside this repository's sources.) -/
theorem chunk_reassembly_exact (s : List Char) (size overlap : Nat)
    (h : overlap < size) :
    reassemble overlap (chunkText size overlap s) = s := by
  unfold chunkText
  rw [if_pos h]
  rcases hf : s.length with _ | n
  · have : s = [] := List.length_eq_zero.mp hf
    subst this
    simp [chunkGo, reassemble]
  · rw [chunkGo]
    by_cases hb : s.length ≤ size
    · rw [if_pos hb]
      simp [reassemble]
    · push_neg at hb
      rw [if_neg (by omega)]
      simp only [reassemble]
      have hlen : (List.drop (size - overlap) s).length ≤ n := by
        simp only [List.length_drop]
        omega
      rw [chunkGo_join_drop size overlap h n _ hlen]
      rw [List.drop_drop]
      have hso : size - overlap + overlap = size := by omega
      rw [hso]
      exact List.take_append_drop size s

/-- C2 witness. -/
theorem chunk_reassembly_exact_witness :
    reassemble 1 (chunkText 3 1 "가나다라마바".data) = "가나다라마바".data :=
  chunk_reassembly_exact "가나다라마바".data 3 1 (by decide)

theorem chunkGo_mem_length (size overlap : Nat) (h : overlap < size) :
    ∀ (fuel : Nat) (s : List Char), s.length ≤ fuel →
    ∀ c ∈ chunkGo fuel s size overlap, c.length ≤ size := by
  intro fuel
  induction fuel with
  | zero =>
      intro s hs c hc
      have : s = [] := List.length_eq_zero.mp (Nat.le_zero.mp hs)
      subst this
      simp [chunkGo] at hc
      subst hc
      simp
  | succ n ih =>
      intro s hs c hc
      by_cases hb : s.length ≤ size
      · simp [chunkGo, hb] at hc
        subst hc
        exact hb
      · push_neg at hb
        rw [chunkGo, if_neg (by omega)] at hc
        rcases List.mem_cons.mp hc with rfl | hc
        · simp
        · have hlen : (List.drop (size - overlap) s).length ≤ n := by
            simp only [List.length_drop]
            omega
          exact ih _ hlen c hc

/-- C3: no produced chunk's text length exceeds the configured target
chunk size; the modelled splitter in fact never exceeds it, so the
claim's unsplittable-run escape clause is never needed. (Splitter
modelled from the spec.) -/
theorem chunk_length_bounded (s c : List Char) (size overlap : Nat)
    (h : overlap < size) (hc : c ∈ chunkText size overlap s) :
    c.length ≤ size := by
  unfold chunkText at hc
  rw [if_pos h] at hc
  exact chunkGo_mem_length size overlap h s.length s le_rfl c hc

/-- C3 witness. -/
theorem chunk_length_bounded_witness :
    ("다라마".data ∈ chunkText 3 1 "가나다라마".data) ∧ ("다라마".data).length ≤ 3 :=
  ⟨by decide, chunk_length_bounded "가나다라마".data "다라마".data 3 1 (by decide) (by decide)⟩

/-- C4: the chunker is deterministic — any two runs of the pipeline on
the same pages with the same parameters produce the same chunk-record
sequence, texts, order and metadata included. In this embedding the
splitter is a pure function, so two runs are literally the same value.
(Splitter modelled from the spec.) -/
theorem chunker_deterministic (docs : List PdfPage) (size overlap : Nat)
    (r1 r2 : List ChunkRecord)
    (h1 : r1 = toChunkRecords (splitPdfPages size overlap docs))
    (h2 : r2 = toChunkRecords (splitPdfPages size overlap docs)) :
    r1 = r2 :=
  h1.trans h2.symm

/-- C4 witness. -/
theorem chunker_deterministic_witness :
    toChunkRecords (splitPdfPages 800 100 [⟨"안전 보건".data, 1, "a.pdf".data⟩]) =
      toChunkRecords (splitPdfPages 800 100 [⟨"안전 보건".data, 1, "a.pdf".data⟩]) :=
  chunker_deterministic [⟨"안전 보건".data, 1, "a.pdf".data⟩] 800 100 _ _ rfl rfl

/-! ## Claims C5, C6: the record loaders -/

/-- C5: a JSON record carrying all required fields loads into exactly
one Document whose text is the labeled fields in the fixed source
order, newline separated, and whose metadata is the category tag plus
the record's title — shown for both the accident-case loader and the
education-item loader. -/
theorem record_loader_renders_fields (r r' : List (String × String))
    (vt vd vl vi vw va vg vs vc vr vk vp wt wd wn wy wk wc wu wf : String)
    (ht : List.lookup "title" r = some vt)
    (hdt : List.lookup "date" r = some vd)
    (hlc : List.lookup "location" r = some vl)
    (hin : List.lookup "industry" r = some vi)
    (hwt : List.lookup "work_type" r = some vw)
    (hac : List.lookup "accident_type" r = some va)
    (hdm : List.lookup "damage" r = some vg)
    (hsm : List.lookup "summary" r = some vs)
    (hdc : List.lookup "direct_cause" r = some vc)
    (hrc : List.lookup "root_cause" r = some vr)
    (hrk : List.lookup "risk_keywords" r = some vk)
    (hpv : List.lookup "prevention" r = some vp)
    (ht' : List.lookup "title" r' = some wt)
    (hd' : List.lookup "date" r' = some wd)
    (hn' : List.lookup "doc_number" r' = some wn)
    (hy' : List.lookup "type" r' = some wy)
    (hk' : List.lookup "keywords" r' = some wk)
    (hc' : List.lookup "content" r' = some wc)
    (hu' : List.lookup "url" r' = some wu)
    (hf' : List.lookup "file_url" r' = some wf) :
    loadAccident r = Except.ok
      { page_content :=
          ("제목: " ++ vt ++ "\n발생일자: " ++ vd ++ "\n발생장소: " ++ vl ++
           "\n업종: " ++ vi ++ "\n작업유형: " ++ vw ++ "\n재해형태: " ++ va ++
           "\n피해정도: " ++ vg ++ "\n사고개요: " ++ vs ++ "\n직접원인: " ++ vc ++
           "\n근본원인: " ++ vr ++ "\n위험요인 키워드: " ++ vk ++
           "\n예방대책: " ++ vp).data
        metadata := [("type", "accident".data), ("title", vt.data)] } ∧
    loadEdu r' = Except.ok
      { page_content :=
          ("제목: " ++ wt ++ "\n작성일자: " ++ wd ++ "\n발간번호: " ++ wn ++
           "\n자료형태: " ++ wy ++ "\n키워드: " ++ wk ++ "\n내용: " ++ wc ++
           "\nURL: " ++ wu ++ "\n첨부파일: " ++ wf).data
        metadata := [("type", "education".data), ("title", wt.data)] } := by
  constructor
  · simp only [loadAccident, ht, hdt, hlc, hin, hwt, hac, hdm, hsm, hdc, hrc, hrk, hpv]
  · simp only [loadEdu, ht', hd', hn', hy', hk', hc', hu', hf']

/-- A concrete accident-case record with every required field. -/
def sampleAccidentRecord : List (String × String) :=
  [("title", "추락사고"), ("date", "2024-01-01"), ("location", "공장"),
   ("industry", "제조"), ("work_type", "정비"), ("accident_type", "추락"),
   ("damage", "중상"), ("summary", "요약"), ("direct_cause", "직접"),
   ("root_cause", "근본"), ("risk_keywords", "추락, 고소"), ("prevention", "안전대")]

/-- A concrete education-item record with every required field. -/
def sampleEduRecord : List (String × String) :=
  [("title", "교육자료"), ("date", "2024"), ("doc_number", "1"), ("type", "PDF"),
   ("keywords", "안전"), ("content", "내용"), ("url", "u"), ("file_url", "f")]

/-- C5 witness. -/
theorem record_loader_renders_fields_witness :
    loadAccident sampleAccidentRecord = Except.ok
      { page_content :=
          ("제목: " ++ "추락사고" ++ "\n발생일자: " ++ "2024-01-01" ++ "\n발생장소: " ++ "공장" ++
           "\n업종: " ++ "제조" ++ "\n작업유형: " ++ "정비" ++ "\n재해형태: " ++ "추락" ++
           "\n피해정도: " ++ "중상" ++ "\n사고개요: " ++ "요약" ++ "\n직접원인: " ++ "직접" ++
           "\n근본원인: " ++ "근본" ++ "\n위험요인 키워드: " ++ "추락, 고소" ++
           "\n예방대책: " ++ "안전대").data
        metadata := [("type", "accident".data), ("title", "추락사고".data)] } ∧
    loadEdu sampleEduRecord = Except.ok
      { page_content :=
          ("제목: " ++ "교육자료" ++ "\n작성일자: " ++ "2024" ++ "\n발간번호: " ++ "1" ++
           "\n자료형태: " ++ "PDF" ++ "\n키워드: " ++ "안전" ++ "\n내용: " ++ "내용" ++
           "\nURL: " ++ "u" ++ "\n첨부파일: " ++ "f").data
        metadata := [("type", "education".data), ("title", "교육자료".data)] } :=
  record_loader_renders_fields sampleAccidentRecord sampleEduRecord
    "추락사고" "2024-01-01" "공장" "제조" "정비" "추락" "중상" "요약" "직접" "근본"
    "추락, 고소" "안전대" "교육자료" "2024" "1" "PDF" "안전" "내용" "u" "f"
    rfl rfl rfl rfl rfl rfl rfl rfl rfl rfl rfl rfl rfl rfl rfl rfl rfl rfl rfl rfl

/-- C6: a record missing at least one required field makes the loader
fail with the KeyError-equivalent (an Except.error naming a field); no
partial Document is produced and no default is substituted — shown for
both loaders. -/
theorem record_loader_missing_field_errors (r : List (String × String)) (k : String) :
    (k ∈ requiredAccidentFields → List.lookup k r = none →
      ∃ msg, loadAccident r = Except.error msg) ∧
    (k ∈ requiredEduFields → List.lookup k r = none →
      ∃ msg, loadEdu r = Except.error msg) := by
  constructor
  · intro hk hmiss
    unfold loadAccident
    repeat' split
    all_goals try exact ⟨_, rfl⟩
    simp only [requiredAccidentFields, List.mem_cons, List.not_mem_nil, or_false] at hk
    rcases hk with rfl | rfl | rfl | rfl | rfl | rfl | rfl | rfl | rfl | rfl | rfl | rfl <;>
      simp_all
  · intro hk hmiss
    unfold loadEdu
    repeat' split
    all_goals try exact ⟨_, rfl⟩
    simp only [requiredEduFields, List.mem_cons, List.not_mem_nil, or_false] at hk
    rcases hk with rfl | rfl | rfl | rfl | rfl | rfl | rfl | rfl <;> simp_all

/-- C6 witness: the empty record misses every field. -/
theorem record_loader_missing_field_errors_witness :
    (∃ msg, loadAccident [] = Except.error msg) ∧
    (∃ msg, loadEdu [] = Except.error msg) :=
  ⟨(record_loader_missing_field_errors [] "title").1 (by decide) rfl,
   (record_loader_missing_field_errors [] "title").2 (by decide) rfl⟩

/-! ## Claims C7, C8: script-level error handling and CLI surface -/

/-- C7 counterexample: a nonexistent PDF path given to the chunking
script does NOT cause an aborting failure — chunk_pdf catches the load
exception, prints the error, returns 0, and the script completes
normally with exit status 0 and a final count summary of zero chunks. -/
theorem chunking_script_swallows_load_error :
    pdfChunkingMain (Except.error "No such file or directory")
        ["pdf_chunking.py", "missing.pdf", "out.json"]
      = (0, ["PDF 파일 로드 중: missing.pdf",
             "PDF 청킹 오류: No such file or directory",
             "완료: 0개 청크"]) := by
  rfl

/-- C7 amended: the DB builder aborts on a failed input-file load (the
error propagates out of the run), while the chunking script catches the
load error inside chunk_pdf, logs it, and completes normally with exit
status 0 reporting zero chunks. -/
theorem error_handling_amended (e : String)
    (eduInput : Except String (List (List (String × String))))
    (lawText : Except String (List Char)) (prog p o : String) :
    buildDbDocs (Except.error e) eduInput lawText = Except.error e ∧
    pdfChunkingMain (Except.error e) [prog, p, o]
      = (0, ["PDF 파일 로드 중: " ++ p, "PDF 청킹 오류: " ++ e, "완료: 0개 청크"]) :=
  ⟨rfl, by
    simp only [pdfChunkingMain, chunk_pdf]
    rw [show ("완료: " ++ toString 0 ++ "개 청크") = "완료: 0개 청크" from by decide]
    simp⟩

/-- C8: invoked with an argument count other than exactly two positional
arguments the script prints the usage message and exits with status 1;
invoked correctly on a successful load it exits normally and prints the
chunk-count summaries. -/
theorem cli_usage_and_count_summary (loadResult : Except String (List PdfPage))
    (argv : List String) (prog p o : String) (docs : List PdfPage) :
    (argv.length ≠ 3 → pdfChunkingMain loadResult argv = (1, [usageMsg])) ∧
    (loadResult = Except.ok docs →
      (pdfChunkingMain loadResult [prog, p, o]).1 = 0 ∧
      "총 " ++ toString (toChunkRecords (splitPdfPages 800 100 docs)).length ++ "개 청크 생성"
        ∈ (pdfChunkingMain loadResult [prog, p, o]).2 ∧
      "완료: " ++ toString (toChunkRecords (splitPdfPages 800 100 docs)).length ++ "개 청크"
        ∈ (pdfChunkingMain loadResult [prog, p, o]).2) := by
  constructor
  · intro hlen
    rcases argv with _ | ⟨a, _ | ⟨b, _ | ⟨c, _ | ⟨d, rest⟩⟩⟩⟩
    · rfl
    · rfl
    · rfl
    · exact absurd rfl hlen
    · rfl
  · intro hok
    subst hok
    refine ⟨rfl, ?_, ?_⟩
    · simp [pdfChunkingMain, chunk_pdf]
    · simp [pdfChunkingMain, chunk_pdf]

/-- A concrete PDF page for the C8 witness. -/
def samplePage : PdfPage := ⟨"안전 보건 기준".data, 1, "law.pdf".data⟩

/-- C8 witness. -/
theorem cli_usage_and_count_summary_witness :
    pdfChunkingMain (Except.ok [samplePage]) ["pdf_chunking.py"] = (1, [usageMsg]) ∧
    ((pdfChunkingMain (Except.ok [samplePage]) ["prog", "in.pdf", "out.json"]).1 = 0 ∧
      "총 " ++ toString (toChunkRecords (splitPdfPages 800 100 [samplePage])).length ++ "개 청크 생성"
        ∈ (pdfChunkingMain (Except.ok [samplePage]) ["prog", "in.pdf", "out.json"]).2 ∧
      "완료: " ++ toString (toChunkRecords (splitPdfPages 800 100 [samplePage])).length ++ "개 청크"
        ∈ (pdfChunkingMain (Except.ok [samplePage]) ["prog", "in.pdf", "out.json"]).2) :=
  ⟨(cli_usage_and_count_summary (Except.ok [samplePage]) ["pdf_chunking.py"]
      "prog" "in.pdf" "out.json" [samplePage]).1 (by decide),
   (cli_usage_and_count_summary (Except.ok [samplePage]) ["pdf_chunking.py"]
      "prog" "in.pdf" "out.json" [samplePage]).2 rfl⟩

end SafetyRag
